import Mathlib

/-!
Verification of the HTTP server in src/server.py (class HTTPServer).

The development shallowly embeds the pure protocol logic of the server:
request parsing, keep-alive policy, host validation, path resolution,
response framing, the per-connection session loop of handle_client, and
the admission dispatcher (start / handle_client_wrapper) as a transition
system.  Sockets are abstracted away: the session loop consumes a list of
raw request strings (one per recv) and emits the list of status codes of
the responses the server decides to send; the filesystem is a parameter.
-/

namespace HTTPServerModel

/-! ## Python string helpers -/

/-- Python str.split(sep) for a one-character separator, modelled on
character lists: splits at every occurrence, keeping empty pieces. -/
def splitChars (sep : Char) : List Char → List (List Char)
  | [] => [[]]
  | c :: rest =>
    let r := splitChars sep rest
    if c = sep then [] :: r
    else
      match r with
      | [] => [[c]]
      | p :: ps => (c :: p) :: ps

/-- Python str.split(':', 1): split at the first occurrence of a character,
returning none when the character does not occur (so that the caller's
membership test and the split agree). -/
def splitFirst (sep : Char) : List Char → Option (List Char × List Char)
  | [] => none
  | c :: rest =>
    if c = sep then some ([], rest)
    else (splitFirst sep rest).map (fun p => (c :: p.1, p.2))

/-- Does the character list start with the given pattern? -/
def startsWithChars : List Char → List Char → Bool
  | _, [] => true
  | [], _ :: _ => false
  | c :: cs, p :: ps => c = p && startsWithChars cs ps

/-- Python substring test (pat in s) for a fixed pattern. -/
def containsChars : List Char → List Char → Bool
  | [], pat => startsWithChars [] pat
  | c :: cs, pat => startsWithChars (c :: cs) pat || containsChars cs pat

/-- str.split("\r\n") on character lists: split at every occurrence of
the two-character sequence CR LF, keeping empty pieces (Python str.split
with a non-empty separator). -/
def splitCRLFChars : List Char → List (List Char)
  | [] => [[]]
  | [c] => [[c]]
  | c :: d :: rest =>
    if c = '\r' ∧ d = '\n' then [] :: splitCRLFChars rest
    else
      match splitCRLFChars (d :: rest) with
      | [] => [[c]]
      | p :: ps => (c :: p) :: ps

/-- str.split("\r\n"): the server splits request text on CRLF. -/
def splitCRLF (s : String) : List String :=
  (splitCRLFChars s.toList).map String.mk

/-- sep.join(pieces) on character lists. -/
def intercalateChars (sep : List Char) : List (List Char) → List Char
  | [] => []
  | [p] => p
  | p :: ps => p ++ sep ++ intercalateChars sep ps

/-- Python str.strip() whitespace test (ASCII whitespace: the characters
Python strips from headers in this server are plain ASCII). -/
def isSpace (c : Char) : Bool :=
  c = ' ' ∨ c = '\t' ∨ c = '\n' ∨ c = '\r' ∨ c = Char.ofNat 11 ∨ c = Char.ofNat 12

/-- Python str.strip() on character lists: drop whitespace from both
ends. -/
def stripChars (cs : List Char) : List Char :=
  ((cs.dropWhile isSpace).reverse.dropWhile isSpace).reverse

/-- Python str.strip(). -/
def pystrip (s : String) : String :=
  String.mk (stripChars s.toList)

/-- Python str.lower() (ASCII case mapping; the strings the server
lowers are ASCII). -/
def pylower (s : String) : String :=
  String.mk (s.toList.map Char.toLower)

/-- "\r\n".join(lines). -/
def joinCRLF (lines : List String) : String :=
  String.mk (intercalateChars ['\r', '\n'] (lines.map String.toList))

/-! ## Python dict model

parse_request stores headers in a dict.  A dict is modelled as an
association list in which every assignment d[k] = v overwrites the value
of an existing key in place (keeping its position) and otherwise appends,
exactly the observable insertion-order behaviour of a Python dict. -/

abbrev Headers := List (String × String)

/-- d[k] = v on a Python dict: overwrite the value of an existing key in
place (a dict holds each key at most once, so replacing the first
occurrence is exact), otherwise append the new binding at the end.  This
is the observable insertion-order behaviour of dict assignment. -/
def dictInsert : Headers → String → String → Headers
  | [], k, v => [(k, v)]
  | p :: ps, k, v =>
    if p.1 = k then (k, v) :: ps else p :: dictInsert ps k v

/-- d.get(k) on a Python dict (none when the key is absent). -/
def dictGet (d : Headers) (k : String) : Option String :=
  (d.find? (fun p => p.1 = k)).map (fun p => p.2)

/-- k in d on a Python dict. -/
def dictHas (d : Headers) (k : String) : Bool :=
  d.any (fun p => p.1 = k)

/-! ## parse_request (src/server.py lines 223-258) -/

/-- A parsed request: method, path, version, headers, body. -/
structure Request where
  method : String
  path : String
  version : String
  headers : Headers
  body : String
  deriving Repr, DecidableEq

/-- The header loop of parse_request: walks the lines after the request
line, stopping at the first empty line, recording body_start = index of
the line after the blank one (0 when no blank line occurs, as in the
Python code where body_start keeps its initialisation).  A line containing
a colon is split once on the first colon, the key stripped and
lower-cased, the value stripped, and assigned into the dict; a line
without a colon is skipped. -/
def headerLoop : List String → Nat → Headers → Headers × Nat
  | [], _, hdrs => (hdrs, 0)
  | line :: rest, i, hdrs =>
    if line = "" then (hdrs, i + 1)
    else
      match splitFirst ':' line.toList with
      | some (k, v) =>
        headerLoop rest (i + 1)
          (dictInsert hdrs (pylower (pystrip (String.mk k))) (pystrip (String.mk v)))
      | none => headerLoop rest (i + 1) hdrs

/-- parse_request: split on CRLF; the first line must have exactly three
space-separated parts (method, path, version); headers are read up to the
first blank line; the rest is the body, re-joined with CRLF (empty when
no blank line was found). -/
def parse_request (request_text : String) : Option Request :=
  match splitChars ' ' ((splitCRLF request_text).headD "").toList with
  | [method, path, version] =>
    some
      { method := String.mk method
        path := String.mk path
        version := String.mk version
        headers := (headerLoop (splitCRLF request_text).tail 1 []).1
        body :=
          if (headerLoop (splitCRLF request_text).tail 1 []).2 > 0 then
            joinCRLF ((splitCRLF request_text).drop
              (headerLoop (splitCRLF request_text).tail 1 []).2)
          else "" }
  | _ => none

/-! ## should_keep_alive (lines 262-271) -/

/-- should_keep_alive: HTTP/1.1 defaults to keep-alive unless the
Connection header (lower-cased) is close; any other version defaults to
close unless the Connection header is keep-alive. -/
def should_keep_alive (version : String) (headers : Headers) : Bool :=
  let connection_header := pylower ((dictGet headers "connection").getD "")
  if version = "HTTP/1.1" then
    connection_header ≠ "close"
  else
    connection_header = "keep-alive"

/-! ## validate_host (lines 274-293) -/

/-- Server configuration: bind host and port (and the maximum worker
count, used by the dispatcher model). -/
structure Config where
  host : String
  port : Nat
  deriving Repr

/-- validate_host: the Host header must be present and equal one of
host:port, localhost:port, 127.0.0.1:port, extended by the three bare
forms when the port is 80. -/
def validate_host (cfg : Config) (headers : Headers) : Bool :=
  if ¬ dictHas headers "host" then false
  else
    let host_header := (dictGet headers "host").getD ""
    let valid_hosts :=
      [cfg.host ++ ":" ++ toString cfg.port,
       "localhost:" ++ toString cfg.port,
       "127.0.0.1:" ++ toString cfg.port]
    let valid_hosts :=
      if cfg.port = 80 then valid_hosts ++ [cfg.host, "localhost", "127.0.0.1"]
      else valid_hosts
    valid_hosts.any (fun v => v = host_header)

/-! ## validate_path (lines 296-328)

The server joins the requested path onto the relative directory
"resources" and calls os.path.abspath, which prepends the current working
directory and normalises the path purely lexically (collapsing slashes
and "." and ".." components; it does not consult the filesystem and in
particular does not resolve symlinks).  posixpath.normpath and
posixpath.join are embedded below; cwd is a parameter of the model. -/

/-- posixpath.join for two components (the general case the server uses):
an absolute second component discards the first; otherwise a slash is
inserted unless the first part is empty or already ends in a slash. -/
def ospath_join (a b : List Char) : List Char :=
  if startsWithChars b ['/'] then b
  else if a = [] ∨ a.getLast? = some '/' then a ++ b
  else a ++ '/' :: b

/-- The component loop of posixpath.normpath: skip empty and "."
components; ".." pops the previous component when there is one and it is
not itself "..", is dropped at an absolute root, and is kept otherwise.
The accumulator holds the processed components in reverse. -/
def normComps (absRoot : Bool) : List (List Char) → List (List Char) → List (List Char)
  | acc, [] => acc.reverse
  | acc, comp :: rest =>
    if comp = [] ∨ comp = ['.'] then normComps absRoot acc rest
    else if comp = ['.', '.'] then
      match acc with
      | a :: acc2 =>
        if a ≠ ['.', '.'] then normComps absRoot acc2 rest
        else normComps absRoot (comp :: acc) rest
      | [] =>
        if absRoot then normComps absRoot [] rest
        else normComps absRoot [comp] rest
    else normComps absRoot (comp :: acc) rest

/-- posixpath.normpath.  An empty path maps to "."; exactly two leading
slashes are preserved (POSIX special case); the component loop runs on the
slash-split pieces. -/
def normpath (p : List Char) : List Char :=
  if p = [] then ['.']
  else
    let absRoot := startsWithChars p ['/']
    let doubleSlash := startsWithChars p ['/', '/'] && ¬ startsWithChars p ['/', '/', '/']
    let comps := normComps absRoot [] (splitChars '/' p)
    let joined := intercalateChars ['/'] comps
    let r := (if doubleSlash then ['/', '/'] else if absRoot then ['/'] else []) ++ joined
    if r = [] then ['.'] else r

/-- os.path.abspath: join onto the current working directory when the
path is relative, then normalise. -/
def abspath (cwd p : List Char) : List Char :=
  if startsWithChars p ['/'] then normpath p else normpath (ospath_join cwd p)

/-- The resources directory of the server (self.resources_dir). -/
def resources_dir : List Char := ['r', 'e', 's', 'o', 'u', 'r', 'c', 'e', 's']

/-- The first stage of validate_path: path.split('?')[0]. -/
def query_stripped (path0 : String) : List Char :=
  (splitChars '?' path0.toList).headD []

/-- The root-path stage of validate_path: "" and "/" become
"/index.html". -/
def rooted (p : List Char) : List Char :=
  if p = ['/'] ∨ p = [] then "/index.html".toList else p

/-- The leading-slash-stripping stage of validate_path. -/
def unslashed (p : List Char) : List Char :=
  if startsWithChars p ['/'] then p.drop 1 else p

/-- The canonicalised join of a relative path onto the resources
directory: os.path.abspath(os.path.join(resources_dir, p)). -/
def full_path_of (cwd : String) (p : List Char) : List Char :=
  abspath cwd.toList (ospath_join resources_dir p)

/-- validate_path: strip the query string; reject a path containing the
substring ".." or starting with "//"; map "" and "/" to "/index.html";
strip one leading slash; join onto the resources directory; canonicalise
with abspath; accept only when the result is a string-prefix extension of
the canonicalised resources directory. -/
def validate_path (cwd : String) (path0 : String) : Option String :=
  if containsChars (query_stripped path0) ['.', '.'] then none
  else if startsWithChars (query_stripped path0) ['/', '/'] then none
  else if startsWithChars (full_path_of cwd (unslashed (rooted (query_stripped path0))))
      (abspath cwd.toList resources_dir) then
    some (String.mk (full_path_of cwd (unslashed (rooted (query_stripped path0)))))
  else none

/-! ## Content types, splitext and handle_get (lines 26-33, 338-400) -/

/-- CONTENT_TYPES: the supported extensions and their content types. -/
def CONTENT_TYPES : List (String × String) :=
  [(".html", "text/html; charset=utf-8"),
   (".txt", "application/octet-stream"),
   (".png", "application/octet-stream"),
   (".jpg", "application/octet-stream"),
   (".jpeg", "application/octet-stream")]

/-- Index of the last occurrence of a character in a list, none when
absent. -/
def lastIndexOf (c : Char) (cs : List Char) : Option Nat :=
  (List.range cs.length).foldl
    (fun acc i => if cs.getD i ' ' = c then some i else acc) none

/-- os.path.splitext: split off the extension at the last dot of the last
path component, unless every character of that component before the dot
is itself a dot (so ".bashrc" has no extension). -/
def splitext (p : String) : String × String :=
  let cs := p.toList
  let sepIndex : Int := match lastIndexOf '/' cs with | some i => (i : Int) | none => -1
  let dotIndex : Int := match lastIndexOf '.' cs with | some i => (i : Int) | none => -1
  if sepIndex < dotIndex then
    let start := (sepIndex + 1).toNat
    let stop := dotIndex.toNat
    if (List.range' start (stop - start)).any (fun j => cs.getD j ' ' ≠ '.') then
      (String.mk (cs.take stop), String.mk (cs.drop stop))
    else (p, "")
  else (p, "")

/-- The filesystem seen by handle_get: which canonical paths are regular
files, and the bytes read from a file (none models an OSError while
opening or reading, which the server turns into a 500). -/
structure FS where
  isfile : String → Bool
  read : String → Option (List Nat)

/-- Outcome of handle_get: a 200 response serving the bytes of the
resolved file, or an error response with the given status code. -/
inductive GetResult where
  | ok (file_path : String) (data : List Nat)
  | err (code : Nat)
  deriving Repr, DecidableEq

/-- handle_get: resolve the path (failure means 403), require an existing
regular file (404), require a supported extension (415), then read the
file (failure means 500) and respond 200. -/
def handle_get (cwd : String) (fs : FS) (path : String) : GetResult :=
  match validate_path cwd path with
  | none => .err 403
  | some file_path =>
    if ¬ fs.isfile file_path then .err 404
    else
      let ext := pylower (splitext file_path).2
      if ¬ (CONTENT_TYPES.any (fun p => p.1 = ext)) then .err 415
      else
        match fs.read file_path with
        | some data => .ok file_path data
        | none => .err 500

/-! ## send_response (lines 411-436) and send_error (lines 440-464)

The body of send_response begins with a bare return None (line 413):
every statement after it, including the framing logic and the
client_socket.sendall call, is unreachable.  The function therefore
sends no bytes for any input.  send_response_wire models the bytes the
call actually writes to the socket; frame_unreachable models the framing
computed by the dead code after the early return. -/

/-- STATUS_CODES: the code-to-reason table. -/
def STATUS_CODES : List (Nat × String) :=
  [(200, "OK"), (201, "Created"), (400, "Bad Request"), (403, "Forbidden"),
   (404, "Not Found"), (405, "Method Not Allowed"),
   (415, "Unsupported Media Type"), (500, "Internal Server Error"),
   (503, "Service Unavailable")]

/-- A response body: a Python str (encoded to UTF-8 by the framing code)
or a bytes object (appended unchanged).  The wire is modelled at the
level of text, so both carry a String of their byte content. -/
inductive Body where
  | text (s : String)
  | binary (s : String)
  deriving Repr, DecidableEq

/-- The byte content a body contributes to the wire. -/
def Body.bytes : Body → String
  | .text s => s
  | .binary s => s

/-- The wire bytes send_response actually writes to the socket.  The
Python function returns None on its first statement (line 413), before
any framing or sendall runs, so nothing is ever sent. -/
def send_response_wire (_status_code : Nat) (_headers : Headers)
    (_body : Body) : Option String :=
  none

/-- self.STATUS_CODES.get(status_code, "Unknown"). -/
def status_text (status_code : Nat) : String :=
  ((STATUS_CODES.find? (fun p => p.1 = status_code)).map (fun p => p.2)).getD "Unknown"

/-- The framing computed by the unreachable code of send_response (lines
415-436): status line HTTP/1.1 code reason (reason "Unknown" for a code
outside STATUS_CODES), each header as key colon space value CRLF in
order, a blank line, then the body bytes. -/
def frame_unreachable (status_code : Nat) (headers : Headers) (body : Body) :
    String :=
  "HTTP/1.1 " ++ toString status_code ++ " " ++ status_text status_code ++ "\r\n" ++
    String.join (headers.map (fun p => p.1 ++ ": " ++ p.2 ++ "\r\n")) ++
    "\r\n" ++ body.bytes

/-! ## handle_client (lines 145-219): the per-connection session loop

The loop is modelled as a function from the list of strings returned by
successive recv calls (an empty string models a recv that returns no
data, i.e. the peer closed) to the list of status codes of the responses
the server decides to send, in order.  handle_post (line 404-406) is a
stub that returns None without sending anything, so a POST contributes no
response.  The socket timeout and exception paths end the loop exactly
like the modelled break statements. -/

/-- Process one received request string: the pair of the status codes
sent for it and whether the loop continues to another read.  Parse
failure sends 400 and stops; a failed host check sends 400 (missing
Host) or 403 (mismatch) and stops; otherwise the request is routed
(GET via handle_get, POST via the stub, anything else 405) and the loop
continues exactly when should_keep_alive holds. -/
def handle_one (cfg : Config) (cwd : String) (fs : FS) (raw : String) :
    List Nat × Bool :=
  match parse_request raw with
  | none => ([400], false)
  | some req =>
    if ¬ validate_host cfg req.headers then
      if ¬ dictHas req.headers "host" then ([400], false) else ([403], false)
    else
      let keep_alive := should_keep_alive req.version req.headers
      let codes :=
        if req.method = "GET" then
          match handle_get cwd fs req.path with
          | .ok _ _ => [200]
          | .err c => [c]
        else if req.method = "POST" then []
        else [405]
      (codes, keep_alive)

/-- max_requests (line 155). -/
def max_requests : Nat := 100

/-- The while loop of handle_client: request_count counts the nonempty
reads so far; the loop runs only while it is below max_requests; an empty
read closes without a response; otherwise the request is processed and
the loop continues only when handle_one says so. -/
def handle_client_loop (cfg : Config) (cwd : String) (fs : FS) :
    List String → Nat → List Nat
  | [], _ => []
  | raw :: rest, request_count =>
    if request_count < max_requests then
      if raw = "" then []
      else if (handle_one cfg cwd fs raw).2 then
        (handle_one cfg cwd fs raw).1 ++
          handle_client_loop cfg cwd fs rest (request_count + 1)
      else (handle_one cfg cwd fs raw).1
    else []

/-- handle_client: run the session loop from a fresh counter. -/
def handle_client (cfg : Config) (cwd : String) (fs : FS)
    (inputs : List String) : List Nat :=
  handle_client_loop cfg cwd fs inputs 0

/-! ## The admission dispatcher (start, lines 88-111, and
handle_client_wrapper, lines 122-141) as a transition system

Both the accept branch of start and the finally block of
handle_client_wrapper run entirely under self.lock, so every reachable
state of (active_threads, queue, running workers) arises from an
interleaving of three atomic steps: accept-and-submit (active below the
maximum), accept-and-enqueue (pool saturated), and
release-and-maybe-requeue.  Connections are identified by the order in
which accept returns them (0, 1, 2, ...), so next is the identifier the
next accepted connection will get. -/

/-- Dispatcher state: the counter active_threads, the identifiers of
connections currently assigned to a worker, the FIFO overflow queue
(oldest first), the identifiers of connections whose worker has finished,
and the identifier of the next connection to be accepted. -/
structure DState where
  active : Nat
  running : List Nat
  queue : List Nat
  done : List Nat
  next : Nat
  deriving Repr, DecidableEq

/-- The state after the finally block of handle_client_wrapper finishes
connection c: decrement active_threads and remove c from the running
set; when the queue is nonempty additionally pop its oldest entry,
re-increment active_threads, and submit the popped connection. -/
def releaseState (s : DState) (c : Nat) : DState :=
  match s.queue with
  | [] =>
    { active := s.active - 1, running := s.running.erase c, queue := [],
      done := c :: s.done, next := s.next }
  | q :: qs =>
    { active := s.active - 1 + 1, running := q :: s.running.erase c, queue := qs,
      done := c :: s.done, next := s.next }

/-- The three atomic steps of the dispatcher, for a pool maximum of
max_threads. -/
inductive DStep (max_threads : Nat) : DState → DState → Prop
  | accept (s : DState) :
      s.active < max_threads →
      DStep max_threads s
        { active := s.active + 1, running := s.next :: s.running,
          queue := s.queue, done := s.done, next := s.next + 1 }
  | acceptQueue (s : DState) :
      ¬ s.active < max_threads →
      DStep max_threads s
        { active := s.active, running := s.running,
          queue := s.queue ++ [s.next], done := s.done, next := s.next + 1 }
  | release (s : DState) (c : Nat) :
      c ∈ s.running →
      DStep max_threads s (releaseState s c)

/-- The initial dispatcher state (server start, lines 43-46). -/
def initDState : DState :=
  { active := 0, running := [], queue := [], done := [], next := 0 }

/-- The reachable dispatcher states. -/
inductive DReachable (max_threads : Nat) : DState → Prop
  | init : DReachable max_threads initDState
  | step {s t : DState} : DReachable max_threads s →
      DStep max_threads s t → DReachable max_threads t

/-! ## Derived definitions used by the statements -/

/-- The Request Parser's header-splitting logic, applied to response wire
bytes: split on CRLF, drop the first (status) line, and run the header
loop of parse_request. -/
def reparse_headers (wire : String) : Headers :=
  (headerLoop (splitCRLF wire).tail 1 []).1

/-- Spec-side definition (for the duplicate-header refinement claim): the
header pairs of the lines before the first blank line, in order, keys
stripped and lower-cased, values stripped, with no dict deduplication. -/
def headerPairs : List String → List (String × String)
  | [] => []
  | line :: rest =>
    if line = "" then []
    else
      match splitFirst ':' line.toList with
      | some (k, v) =>
        (pylower (pystrip (String.mk k)), pystrip (String.mk v)) :: headerPairs rest
      | none => headerPairs rest

/-- Spec-side definition: the value of the last pair carrying the given
key (last match wins). -/
def lastBinding : List (String × String) → String → Option String
  | [], _ => none
  | p :: ps, k =>
    match lastBinding ps k with
    | some v => some v
    | none => if p.1 = k then some p.2 else none

/-- A filesystem with no files (every isfile query is false, every read
fails). -/
def noFS : FS :=
  { isfile := fun _ => false, read := fun _ => none }

/-! ## Supporting lemmas -/

theorem dictHas_eq_isSome (d : Headers) (k : String) :
    dictHas d k = (dictGet d k).isSome := by
  induction d with
  | nil => rfl
  | cons p ps ih =>
    by_cases h : p.1 = k
    · simp [dictHas, dictGet, List.find?, h]
    · have hstep : dictHas (p :: ps) k = dictHas ps k := by simp [dictHas, h]
      rw [hstep, ih]
      simp [dictGet, List.find?, h]

theorem dictGet_dictInsert (d : Headers) (k v q : String) :
    dictGet (dictInsert d k v) q = if k = q then some v else dictGet d q := by
  induction d with
  | nil => by_cases h : k = q <;> simp [dictGet, dictInsert, List.find?, h]
  | cons p ps ih =>
    show dictGet (if p.1 = k then (k, v) :: ps else p :: dictInsert ps k v) q = _
    by_cases hp : p.1 = k
    · rw [if_pos hp]
      by_cases hq : k = q
      · subst hq; simp [dictGet, List.find?, hp]
      · have hpq : ¬ p.1 = q := fun h => hq (hp.symm.trans h)
        simp [dictGet, List.find?, hq, hpq]
    · rw [if_neg hp]
      by_cases hq : p.1 = q
      · have hkq : ¬ k = q := fun h => hp (hq.trans h.symm)
        simp [dictGet, List.find?, hq, hkq]
      · have hstep : dictGet (p :: dictInsert ps k v) q = dictGet (dictInsert ps k v) q := by
          simp [dictGet, List.find?, hq]
        have hstep2 : dictGet (p :: ps) q = dictGet ps q := by
          simp [dictGet, List.find?, hq]
        rw [hstep, ih, hstep2]

theorem parse_request_empty : parse_request "" = none := rfl

theorem parse_request_ne_empty {raw : String} {req : Request}
    (h : parse_request raw = some req) : raw ≠ "" := by
  intro hraw
  rw [hraw, parse_request_empty] at h
  exact Option.noConfusion h

theorem handle_client_cons (cfg : Config) (cwd : String) (fs : FS)
    (raw : String) (rest : List String) (hne : raw ≠ "") :
    handle_client cfg cwd fs (raw :: rest) =
      (if (handle_one cfg cwd fs raw).2
       then (handle_one cfg cwd fs raw).1 ++ handle_client_loop cfg cwd fs rest 1
       else (handle_one cfg cwd fs raw).1) := by
  conv_lhs => unfold handle_client handle_client_loop
  simp [max_requests, hne]

theorem handle_one_parse_fail (cfg : Config) (cwd : String) (fs : FS)
    {raw : String} (hp : parse_request raw = none) :
    handle_one cfg cwd fs raw = ([400], false) := by
  unfold handle_one
  rw [hp]

theorem validate_host_no_host (cfg : Config) {headers : Headers}
    (hh : dictHas headers "host" = false) :
    validate_host cfg headers = false := by
  simp [validate_host, hh]

theorem handle_one_no_host (cfg : Config) (cwd : String) (fs : FS)
    {raw : String} {req : Request} (hp : parse_request raw = some req)
    (hh : dictHas req.headers "host" = false) :
    handle_one cfg cwd fs raw = ([400], false) := by
  unfold handle_one
  rw [hp]
  simp [validate_host_no_host cfg hh, hh]

theorem handle_one_bad_host (cfg : Config) (cwd : String) (fs : FS)
    {raw : String} {req : Request} (hp : parse_request raw = some req)
    (hv : validate_host cfg req.headers = false)
    (hh : dictHas req.headers "host" = true) :
    handle_one cfg cwd fs raw = ([403], false) := by
  unfold handle_one
  rw [hp]
  simp [hv, hh]

theorem handle_one_snd (cfg : Config) (cwd : String) (fs : FS)
    {raw : String} {req : Request} (hp : parse_request raw = some req)
    (hv : validate_host cfg req.headers = true) :
    (handle_one cfg cwd fs raw).2 = should_keep_alive req.version req.headers := by
  unfold handle_one
  rw [hp]
  simp [hv]

/-! ## Claim theorems -/

/-- C6: should_keep_alive returns, when the declared version is exactly
HTTP/1.1, true unless the (lower-cased, hence case-insensitive)
Connection header value is close; for any other declared version, false
unless that value is keep-alive; so a missing Connection header yields
keep-alive for HTTP/1.1 and close for HTTP/1.0. -/
theorem keep_alive_policy (version : String) (headers : Headers) :
    (should_keep_alive version headers = true ↔
      (if version = "HTTP/1.1"
       then ¬ pylower ((dictGet headers "connection").getD "") = "close"
       else pylower ((dictGet headers "connection").getD "") = "keep-alive"))
    ∧ should_keep_alive "HTTP/1.1" [] = true
    ∧ should_keep_alive "HTTP/1.1" [("connection", "close")] = false
    ∧ should_keep_alive "HTTP/1.0" [] = false
    ∧ should_keep_alive "HTTP/1.0" [("connection", "keep-alive")] = true := by
  refine ⟨?_, by decide, by decide, by decide, by decide⟩
  by_cases h : version = "HTTP/1.1" <;> simp [should_keep_alive, h]

/-- C1: send_response sends no wire bytes at all: its body returns None
on its first statement (src/server.py line 413), before the framing code
and the sendall call, which are unreachable.  The unreachable framing
code after the early return would have produced the status line with the
fixed reason table (reason Unknown outside the table), the headers in
caller order, a blank line and the body bytes, as the conjuncts evaluate
on sample inputs. -/
theorem send_response_sends_nothing :
    (∀ (status : Nat) (headers : Headers) (body : Body),
        send_response_wire status headers body = none)
    ∧ frame_unreachable 200 [("Content-Length", "5"), ("Connection", "close")]
        (.text "hello") =
        "HTTP/1.1 200 OK\r\nContent-Length: 5\r\nConnection: close\r\n\r\nhello"
    ∧ frame_unreachable 400 [("Connection", "close")] (.text "") =
        "HTTP/1.1 400 Bad Request\r\nConnection: close\r\n\r\n"
    ∧ frame_unreachable 418 [] (.binary "payload") =
        "HTTP/1.1 418 Unknown\r\n\r\npayload" :=
  ⟨fun _ _ _ => rfl, by decide, by decide, by decide⟩

/-- C10: handle_get checks existence before the content-type table: any
resolved path whose file does not exist yields 404 regardless of its
extension, and a 415 can only arise for a file that exists; in
particular a GET for a nonexistent style.css yields 404, not 415. -/
theorem get_missing_file_404 :
    (∀ (cwd : String) (fs : FS) (path fp : String),
        validate_path cwd path = some fp → fs.isfile fp = false →
        handle_get cwd fs path = .err 404)
    ∧ (∀ (cwd : String) (fs : FS) (path : String),
        handle_get cwd fs path = .err 415 →
        ∃ fp, validate_path cwd path = some fp ∧ fs.isfile fp = true)
    ∧ handle_get "/srv" noFS "/style.css" = .err 404 := by
  refine ⟨?_, ?_, by decide⟩
  · intro cwd fs path fp h hfile
    unfold handle_get
    rw [h]
    simp [hfile]
  · intro cwd fs path h
    unfold handle_get at h
    cases hv : validate_path cwd path with
    | none => rw [hv] at h; simp at h
    | some fp =>
      rw [hv] at h
      by_cases hfile : fs.isfile fp
      · exact ⟨fp, rfl, hfile⟩
      · simp [hfile] at h

/-- Closed witness for get_missing_file_404. -/
theorem get_missing_file_404_witness :
    handle_get "/srv" noFS "/absent.css" = .err 404 :=
  get_missing_file_404.1 "/srv" noFS "/absent.css" "/srv/resources/absent.css"
    (by decide) rfl

/-- C4: validate_path strips the query string first; rejects whenever the
remaining raw path contains the two-character sequence dot-dot or starts
with a double slash; maps the empty path and the bare slash to
/index.html; and every accepted path, after joining onto the sandbox root
and canonicalising with abspath, is prefix-contained within the
canonicalised sandbox root.  Concretely, /../../etc/passwd and //evil are
rejected for every working directory, and / resolves to a path ending in
index.html. -/
theorem path_resolution (cwd path : String) :
    (containsChars (query_stripped path) ['.', '.'] = true →
        validate_path cwd path = none)
    ∧ (startsWithChars (query_stripped path) ['/', '/'] = true →
        validate_path cwd path = none)
    ∧ validate_path cwd "" = validate_path cwd "/index.html"
    ∧ validate_path cwd "/" = validate_path cwd "/index.html"
    ∧ (∀ fp, validate_path cwd path = some fp →
        startsWithChars fp.toList (abspath cwd.toList resources_dir) = true)
    ∧ validate_path cwd "/../../etc/passwd" = none
    ∧ validate_path cwd "//evil" = none
    ∧ validate_path "/srv" "/" = some "/srv/resources/index.html"
    ∧ startsWithChars "/srv/resources/index.html".toList.reverse
        "index.html".toList.reverse = true := by
  refine ⟨?_, ?_, rfl, rfl, ?_, rfl, rfl, by decide, by decide⟩
  · intro h
    simp [validate_path, h]
  · intro h
    simp [validate_path, h]
  · intro fp h
    unfold validate_path at h
    split at h
    · exact Option.noConfusion h
    · split at h
      · exact Option.noConfusion h
      · split at h
        · rename_i hcond
          rw [Option.some_inj] at h
          subst h
          exact hcond
        · exact Option.noConfusion h

/-- Closed witness for path_resolution. -/
theorem path_resolution_witness :
    validate_path "/srv" "/a..b" = none
    ∧ validate_path "/srv" "//x/y" = none
    ∧ startsWithChars "/srv/resources/index.html".toList
        (abspath "/srv".toList resources_dir) = true :=
  ⟨(path_resolution "/srv" "/a..b").1 (by decide),
   (path_resolution "/srv" "//x/y").2.1 (by decide),
   (path_resolution "/srv" "/").2.2.2.2.1 "/srv/resources/index.html" (by decide)⟩

/-- C5: validate_host accepts exactly the Host values configuredHost:port,
localhost:port and 127.0.0.1:port, extended by the three bare forms
exactly when the port is 80; in the session loop a parsed request with no
Host header is answered 400 and the connection closes with no further
response, and one whose Host is present but not accepted is answered 403
and the connection closes. -/
theorem host_validation (cfg : Config) (headers : Headers) :
    (validate_host cfg headers = true ↔
      ∃ h, dictGet headers "host" = some h ∧
        (h = cfg.host ++ ":" ++ toString cfg.port ∨
         h = "localhost:" ++ toString cfg.port ∨
         h = "127.0.0.1:" ++ toString cfg.port ∨
         (cfg.port = 80 ∧ (h = cfg.host ∨ h = "localhost" ∨ h = "127.0.0.1"))))
    ∧ (∀ (cwd : String) (fs : FS) (raw : String) (rest : List String) (req : Request),
        parse_request raw = some req → dictHas req.headers "host" = false →
        handle_client cfg cwd fs (raw :: rest) = [400])
    ∧ (∀ (cwd : String) (fs : FS) (raw : String) (rest : List String) (req : Request),
        parse_request raw = some req → validate_host cfg req.headers = false →
        dictHas req.headers "host" = true →
        handle_client cfg cwd fs (raw :: rest) = [403]) := by
  refine ⟨?_, ?_, ?_⟩
  · cases hh : dictHas headers "host" with
    | false =>
      have hnone : dictGet headers "host" = none := by
        have := dictHas_eq_isSome headers "host"
        rw [hh] at this
        exact Option.not_isSome_iff_eq_none.mp (by rw [← this]; exact Bool.false_ne_true)
      simp [validate_host, hh, hnone]
    | true =>
      have hsome : (dictGet headers "host").isSome := by
        rw [← dictHas_eq_isSome, hh]
      obtain ⟨v, hv⟩ := Option.isSome_iff_exists.mp hsome
      rw [hv]
      by_cases hp : cfg.port = 80 <;>
        simp [validate_host, hh, hv, hp] <;> tauto
  · intro cwd fs raw rest req hp hh
    rw [handle_client_cons cfg cwd fs raw rest (parse_request_ne_empty hp),
        handle_one_no_host cfg cwd fs hp hh]
    rfl
  · intro cwd fs raw rest req hp hv hh
    rw [handle_client_cons cfg cwd fs raw rest (parse_request_ne_empty hp),
        handle_one_bad_host cfg cwd fs hp hv hh]
    rfl

/-- Closed witness for host_validation. -/
theorem host_validation_witness :
    handle_client ⟨"192.168.0.7", 9000⟩ "/srv" noFS
        ["GET / HTTP/1.1\r\nAccept: text/html\r\n\r\n"] = [400]
    ∧ handle_client ⟨"192.168.0.7", 9000⟩ "/srv" noFS
        ["GET / HTTP/1.1\r\nHost: evil.com\r\n\r\n"] = [403] :=
  ⟨(host_validation ⟨"192.168.0.7", 9000⟩ []).2.1 "/srv" noFS
      "GET / HTTP/1.1\r\nAccept: text/html\r\n\r\n" []
      ⟨"GET", "/", "HTTP/1.1", [("accept", "text/html")], ""⟩
      (by decide) (by decide),
   (host_validation ⟨"192.168.0.7", 9000⟩ []).2.2 "/srv" noFS
      "GET / HTTP/1.1\r\nHost: evil.com\r\n\r\n" []
      ⟨"GET", "/", "HTTP/1.1", [("host", "evil.com")], ""⟩
      (by decide) (by decide) (by decide)⟩

theorem handle_one_length (cfg : Config) (cwd : String) (fs : FS) (raw : String) :
    (handle_one cfg cwd fs raw).1.length ≤ 1 := by
  unfold handle_one
  cases parse_request raw with
  | none => simp
  | some req =>
    by_cases hv : validate_host cfg req.headers
    · simp only [hv]
      by_cases hg : req.method = "GET"
      · simp only [hg]
        cases handle_get cwd fs req.path <;> simp
      · by_cases hpo : req.method = "POST" <;> simp [hg, hpo]
    · by_cases hh : dictHas req.headers "host" <;> simp [hv, hh]

theorem handle_client_loop_length (cfg : Config) (cwd : String) (fs : FS) :
    ∀ (inputs : List String) (n : Nat),
      (handle_client_loop cfg cwd fs inputs n).length ≤ max_requests - n := by
  intro inputs
  induction inputs with
  | nil => intro n; simp [handle_client_loop]
  | cons raw rest ih =>
    intro n
    unfold handle_client_loop
    split
    · rename_i hn
      split
      · simp
      · split
        · have h1 := handle_one_length cfg cwd fs raw
          have h2 := ih (n + 1)
          simp only [List.length_append]
          omega
        · have h1 := handle_one_length cfg cwd fs raw
          omega
    · simp

theorem handle_client_loop_take (cfg : Config) (cwd : String) (fs : FS) :
    ∀ (inputs : List String) (n : Nat),
      handle_client_loop cfg cwd fs inputs n =
        handle_client_loop cfg cwd fs (inputs.take (max_requests - n)) n := by
  intro inputs
  induction inputs with
  | nil => intro n; simp
  | cons raw rest ih =>
    intro n
    by_cases hn : n < max_requests
    · have htake : max_requests - n = (max_requests - (n + 1)) + 1 := by
        unfold max_requests at hn ⊢; omega
      rw [htake, List.take_succ_cons]
      conv_lhs => unfold handle_client_loop
      conv_rhs => unfold handle_client_loop
      rw [if_pos hn, if_pos hn]
      by_cases hraw : raw = ""
      · simp [hraw]
      · simp only [hraw, if_false, ite_false]
        rw [ih (n + 1)]
    · have htake : max_requests - n = 0 := by omega
      rw [htake, List.take_zero]
      conv_lhs => unfold handle_client_loop
      conv_rhs => unfold handle_client_loop
      simp [hn]

/-- C7: the session loop serves at most 100 requests per connection: the
response list never exceeds 100 entries, inputs beyond the first 100 are
never read (the loop output only depends on the first 100 received
requests), and on a persistent connection receiving 101 keep-alive
requests exactly the first 100 are answered. -/
theorem request_cap :
    (∀ (cfg : Config) (cwd : String) (fs : FS) (inputs : List String),
        (handle_client cfg cwd fs inputs).length ≤ max_requests)
    ∧ (∀ (cfg : Config) (cwd : String) (fs : FS) (inputs : List String),
        handle_client cfg cwd fs inputs =
          handle_client cfg cwd fs (inputs.take max_requests))
    ∧ handle_client ⟨"127.0.0.1", 8080⟩ "/srv" noFS
        (List.replicate 101 "PUT / HTTP/1.1\r\nHost: 127.0.0.1:8080\r\n\r\n") =
      List.replicate 100 405 := by
  refine ⟨?_, ?_, by decide⟩
  · intro cfg cwd fs inputs
    simpa using handle_client_loop_length cfg cwd fs inputs 0
  · intro cfg cwd fs inputs
    simpa using handle_client_loop_take cfg cwd fs inputs 0

/-- C3 counterexample: on a single connection, a keep-alive HTTP/1.1 GET
for a missing file is answered 404 and the session loop then reads and
serves a further request on the same connection, answering a second 404 —
so a protocol-level error response is not always terminal. -/
theorem error_not_terminal_counterexample :
    handle_client ⟨"127.0.0.1", 8080⟩ "/srv" noFS
        ["GET /missing.html HTTP/1.1\r\nHost: 127.0.0.1:8080\r\n\r\n",
         "GET /missing.html HTTP/1.1\r\nHost: 127.0.0.1:8080\r\n\r\n"] = [404, 404]
    ∧ (handle_client ⟨"127.0.0.1", 8080⟩ "/srv" noFS
        ["GET /missing.html HTTP/1.1\r\nHost: 127.0.0.1:8080\r\n\r\n",
         "GET /missing.html HTTP/1.1\r\nHost: 127.0.0.1:8080\r\n\r\n"]).length = 2 :=
  ⟨by decide, by decide⟩

/-- C3 (amended): only parse failures and Host-validation failures are
terminal for the connection (one 400 or 403 response, then close with no
further requests read); responses produced by routing — including the
errors 403, 404, 405, 415 and 500 — close the connection only when
keep-alive is false, and otherwise the loop continues reading further
requests on the same connection. -/
theorem session_error_terminality (cfg : Config) (cwd : String) (fs : FS)
    (raw : String) (rest : List String) (req : Request) :
    (raw ≠ "" → parse_request raw = none →
        handle_client cfg cwd fs (raw :: rest) = [400])
    ∧ (parse_request raw = some req → validate_host cfg req.headers = false →
        handle_client cfg cwd fs (raw :: rest) =
          [if dictHas req.headers "host" then 403 else 400])
    ∧ (parse_request raw = some req → validate_host cfg req.headers = true →
        should_keep_alive req.version req.headers = false →
        handle_client cfg cwd fs (raw :: rest) = (handle_one cfg cwd fs raw).1)
    ∧ (parse_request raw = some req → validate_host cfg req.headers = true →
        should_keep_alive req.version req.headers = true →
        handle_client cfg cwd fs (raw :: rest) =
          (handle_one cfg cwd fs raw).1 ++ handle_client_loop cfg cwd fs rest 1) := by
  refine ⟨?_, ?_, ?_, ?_⟩
  · intro hne hp
    rw [handle_client_cons cfg cwd fs raw rest hne, handle_one_parse_fail cfg cwd fs hp]
    rfl
  · intro hp hv
    cases hh : dictHas req.headers "host" with
    | false =>
      rw [handle_client_cons cfg cwd fs raw rest (parse_request_ne_empty hp),
          handle_one_no_host cfg cwd fs hp hh]
      rfl
    | true =>
      rw [handle_client_cons cfg cwd fs raw rest (parse_request_ne_empty hp),
          handle_one_bad_host cfg cwd fs hp hv hh]
      rfl
  · intro hp hv hka
    rw [handle_client_cons cfg cwd fs raw rest (parse_request_ne_empty hp),
        handle_one_snd cfg cwd fs hp hv, hka]
    rfl
  · intro hp hv hka
    rw [handle_client_cons cfg cwd fs raw rest (parse_request_ne_empty hp),
        handle_one_snd cfg cwd fs hp hv, hka]
    rfl

/-- Closed witness for session_error_terminality. -/
theorem session_error_terminality_witness :
    handle_client ⟨"127.0.0.1", 8080⟩ "/srv" noFS
        ["GET /missing.html HTTP/1.0\r\nHost: 127.0.0.1:8080\r\n\r\n",
         "GET /missing.html HTTP/1.0\r\nHost: 127.0.0.1:8080\r\n\r\n"] =
      (handle_one ⟨"127.0.0.1", 8080⟩ "/srv" noFS
        "GET /missing.html HTTP/1.0\r\nHost: 127.0.0.1:8080\r\n\r\n").1 :=
  (session_error_terminality ⟨"127.0.0.1", 8080⟩ "/srv" noFS
      "GET /missing.html HTTP/1.0\r\nHost: 127.0.0.1:8080\r\n\r\n"
      ["GET /missing.html HTTP/1.0\r\nHost: 127.0.0.1:8080\r\n\r\n"]
      ⟨"GET", "/missing.html", "HTTP/1.0", [("host", "127.0.0.1:8080")], ""⟩).2.2.1
    (by decide) (by decide) (by decide)

theorem headerLoop_dictGet (k : String) :
    ∀ (ls : List String) (i : Nat) (d : Headers),
      dictGet (headerLoop ls i d).1 k =
        (match lastBinding (headerPairs ls) k with
         | some v => some v
         | none => dictGet d k) := by
  intro ls
  induction ls with
  | nil => intro i d; rfl
  | cons line rest ih =>
    intro i d
    by_cases hline : line = ""
    · simp [headerLoop, headerPairs, hline, lastBinding]
    · cases hsp : splitFirst ':' line.data with
      | none => simp [headerLoop, headerPairs, hline, hsp, ih]
      | some kv =>
        obtain ⟨kc, vc⟩ := kv
        simp only [headerLoop, headerPairs, String.toList, hline, hsp, if_false,
          ite_false]
        rw [ih]
        cases hlb : lastBinding (headerPairs rest) k with
        | some v => simp [lastBinding, hlb]
        | none =>
          simp only [lastBinding, hlb, dictGet_dictInsert]
          by_cases hk : pylower (pystrip (String.mk kc)) = k <;> simp [hk]

/-- C8 counterexample: a raw request carrying two header lines with the
same key binds that key to the value of the second (last) line, not the
first: parsing yields x-dup bound to b, not a. -/
theorem duplicate_header_counterexample :
    (parse_request "GET / HTTP/1.1\r\nx-dup: a\r\nx-dup: b\r\n\r\n").map
        (fun r => dictGet r.headers "x-dup") = some (some "b")
    ∧ (parse_request "GET / HTTP/1.1\r\nx-dup: a\r\nx-dup: b\r\n\r\n").map
        (fun r => dictGet r.headers "x-dup") ≠ some (some "a") :=
  ⟨by decide, by decide⟩

/-- C8 (amended): for every raw request whose header section contains two
lines with the same (case-insensitively equal) key, the header mapping
binds that key to the value of the LAST such line — dict assignment in
the parser overwrites, so the last match wins for every key. -/
theorem duplicate_header_last_wins (raw : String) (req : Request)
    (h : parse_request raw = some req) (k : String) :
    dictGet req.headers k = lastBinding (headerPairs (splitCRLF raw).tail) k := by
  have hh : req.headers = (headerLoop (splitCRLF raw).tail 1 []).1 := by
    unfold parse_request at h
    split at h
    · rw [Option.some_inj] at h
      rw [← h]
    · exact Option.noConfusion h
  rw [hh, headerLoop_dictGet]
  cases lastBinding (headerPairs (splitCRLF raw).tail) k <;> rfl

/-- Closed witness for duplicate_header_last_wins. -/
theorem duplicate_header_last_wins_witness :
    dictGet ([("x-dup", "b")] : Headers) "x-dup" =
      lastBinding
        (headerPairs (splitCRLF "GET / HTTP/1.1\r\nx-dup: a\r\nx-dup: b\r\n\r\n").tail)
        "x-dup" :=
  duplicate_header_last_wins "GET / HTTP/1.1\r\nx-dup: a\r\nx-dup: b\r\n\r\n"
    ⟨"GET", "/", "HTTP/1.1", [("x-dup", "b")], ""⟩ (by decide) "x-dup"

theorem dstep_inv (max_threads : Nat) {s t : DState}
    (hstep : DStep max_threads s t)
    (hlen : s.active = s.running.length) (hmax : s.active ≤ max_threads)
    (hperm : (s.running ++ s.queue ++ s.done).Perm (List.range s.next)) :
    t.active = t.running.length ∧ t.active ≤ max_threads ∧
      (t.running ++ t.queue ++ t.done).Perm (List.range t.next) := by
  cases hstep with
  | accept hlt =>
    refine ⟨by simp [hlen], by simpa using hlt, ?_⟩
    rw [List.perm_iff_count] at hperm ⊢
    intro a
    have hcnt := hperm a
    simp only [List.count_append, List.count_cons, List.count_singleton,
      List.range_succ] at hcnt ⊢
    by_cases ha : s.next = a <;> simp [ha] at hcnt ⊢ <;> omega
  | acceptQueue hge =>
    refine ⟨hlen, hmax, ?_⟩
    rw [List.perm_iff_count] at hperm ⊢
    intro a
    have hcnt := hperm a
    simp only [List.count_append, List.count_cons, List.count_singleton,
      List.range_succ] at hcnt ⊢
    by_cases ha : s.next = a <;> simp [ha] at hcnt ⊢ <;> omega
  | release c hc =>
    have hpos : 0 < s.running.length :=
      List.length_pos.mpr (List.ne_nil_of_mem hc)
    have hcc : 0 < List.count c s.running := List.count_pos_iff.mpr hc
    cases hq : s.queue with
    | nil =>
      have hrel : releaseState s c =
          { active := s.active - 1, running := s.running.erase c, queue := [],
            done := c :: s.done, next := s.next } := by
        unfold releaseState
        rw [hq]
      rw [hq] at hperm
      rw [hrel]
      refine ⟨?_, ?_, ?_⟩
      · show s.active - 1 = (s.running.erase c).length
        rw [List.length_erase_of_mem hc, hlen]
      · show s.active - 1 ≤ max_threads
        omega
      · show ((s.running.erase c) ++ [] ++ (c :: s.done)).Perm (List.range s.next)
        rw [List.perm_iff_count] at hperm ⊢
        intro a
        have hcnt := hperm a
        simp only [List.count_append, List.count_cons, List.count_erase,
          List.count_nil] at hcnt ⊢
        by_cases ha : c = a
        · have hcc2 : 0 < List.count a s.running := ha ▸ hcc
          simp [ha]
          omega
        · simp [ha]
          omega
    | cons q qs =>
      have hrel : releaseState s c =
          { active := s.active - 1 + 1, running := q :: s.running.erase c,
            queue := qs, done := c :: s.done, next := s.next } := by
        unfold releaseState
        rw [hq]
      rw [hq] at hperm
      rw [hrel]
      refine ⟨?_, ?_, ?_⟩
      · show s.active - 1 + 1 = (q :: s.running.erase c).length
        simp only [List.length_cons, List.length_erase_of_mem hc]
        omega
      · show s.active - 1 + 1 ≤ max_threads
        omega
      · show ((q :: s.running.erase c) ++ qs ++ (c :: s.done)).Perm
            (List.range s.next)
        rw [List.perm_iff_count] at hperm ⊢
        intro a
        have hcnt := hperm a
        simp only [List.count_append, List.count_cons, List.count_erase] at hcnt ⊢
        by_cases ha : c = a
        · have hcc2 : 0 < List.count a s.running := ha ▸ hcc
          by_cases haq : q = a <;> simp [ha, haq] at hcnt ⊢ <;> omega
        · by_cases haq : q = a <;> simp [ha, haq] at hcnt ⊢ <;> omega

theorem dreachable_inv (max_threads : Nat) (s : DState)
    (h : DReachable max_threads s) :
    s.active = s.running.length ∧ s.active ≤ max_threads ∧
      (s.running ++ s.queue ++ s.done).Perm (List.range s.next) := by
  induction h with
  | init => exact ⟨rfl, Nat.zero_le _, by simp [initDState]⟩
  | step hr hstep ih => exact dstep_inv max_threads hstep ih.1 ih.2.1 ih.2.2

/-- C2: in every reachable dispatcher state, active_threads equals the
number of running workers and stays within the pool bound; no connection
is simultaneously queued and running (and every accepted connection is in
exactly one of running, queue or done); and the release step, when the
queue is nonempty, atomically decrements, pops exactly the oldest queue
entry and re-increments, so no connection is lost or dispatched twice. -/
theorem dispatcher_invariant (max_threads : Nat) (s : DState)
    (h : DReachable max_threads s) :
    (s.active ≤ max_threads ∧ s.active = s.running.length)
    ∧ (∀ c, c ∈ s.running → c ∉ s.queue)
    ∧ (s.running ++ s.queue ++ s.done).Perm (List.range s.next)
    ∧ (∀ c q qs, c ∈ s.running → s.queue = q :: qs →
        releaseState s c =
          { active := s.active - 1 + 1, running := q :: s.running.erase c,
            queue := qs, done := c :: s.done, next := s.next }) := by
  obtain ⟨hlen, hmax, hperm⟩ := dreachable_inv max_threads s h
  refine ⟨⟨hmax, hlen⟩, ?_, hperm, ?_⟩
  · intro c hcr hcq
    have hnd : (s.running ++ s.queue ++ s.done).Nodup :=
      hperm.symm.nodup (List.nodup_range s.next)
    have h1 := (List.nodup_append.mp hnd).1
    have h2 := (List.nodup_append.mp h1).2.2
    exact List.disjoint_left.mp h2 hcr hcq
  · intro c q qs hcr hq
    unfold releaseState
    rw [hq]

/-- Closed witness for dispatcher_invariant, at the initial state. -/
theorem dispatcher_invariant_witness :
    ((initDState.active ≤ 4 ∧ initDState.active = initDState.running.length)
    ∧ (∀ c, c ∈ initDState.running → c ∉ initDState.queue)
    ∧ (initDState.running ++ initDState.queue ++ initDState.done).Perm
        (List.range initDState.next)
    ∧ (∀ c q qs, c ∈ initDState.running → initDState.queue = q :: qs →
        releaseState initDState c =
          { active := initDState.active - 1 + 1,
            running := q :: initDState.running.erase c,
            queue := qs, done := c :: initDState.done,
            next := initDState.next })) :=
  dispatcher_invariant 4 initDState DReachable.init

theorem containsChars_crlf_false {l : List Char} (h : '\r' ∉ l) :
    containsChars l ['\r', '\n'] = false := by
  induction l with
  | nil => rfl
  | cons c cs ih =>
    have hc : c ≠ '\r' := fun hc => h (hc ▸ List.mem_cons_self c cs)
    have hcs : '\r' ∉ cs := fun hm => h (List.mem_cons_of_mem c hm)
    simp [containsChars, startsWithChars, hc, ih hcs]

theorem splitCRLFChars_append (a R : List Char)
    (h : containsChars a ['\r', '\n'] = false) :
    splitCRLFChars (a ++ '\r' :: '\n' :: R) = a :: splitCRLFChars R := by
  induction a with
  | nil => simp [splitCRLFChars]
  | cons c cs ih =>
    have hparts := h
    simp only [containsChars, Bool.or_eq_false_iff] at hparts
    obtain ⟨hstart, hcs⟩ := hparts
    cases cs with
    | nil =>
      show splitCRLFChars (c :: '\r' :: '\n' :: R) = [c] :: splitCRLFChars R
      have hcond : ¬ (c = '\r' ∧ '\r' = '\n') := by
        rintro ⟨-, hab⟩
        exact absurd hab (by decide)
      rw [splitCRLFChars, if_neg hcond]
      have hinner : splitCRLFChars ('\r' :: '\n' :: R) = [] :: splitCRLFChars R := by
        simp [splitCRLFChars]
      rw [hinner]
    | cons e es =>
      show splitCRLFChars (c :: e :: (es ++ '\r' :: '\n' :: R)) =
        (c :: e :: es) :: splitCRLFChars R
      have hcond : ¬ (c = '\r' ∧ e = '\n') := by
        rintro ⟨hc, he⟩
        subst hc; subst he
        simp [startsWithChars] at hstart
      rw [splitCRLFChars, if_neg hcond]
      have hin : splitCRLFChars (e :: es ++ '\r' :: '\n' :: R) =
          (e :: es) :: splitCRLFChars R := ih hcs
      rw [← List.cons_append, hin]

theorem digitChar_ne_cr {m : Nat} (hm : m < 10) : Nat.digitChar m ≠ '\r' := by
  interval_cases m <;> decide

theorem toDigitsCore_ne_cr :
    ∀ (fuel n : Nat) (ds : List Char), (∀ c ∈ ds, c ≠ '\r') →
      ∀ c ∈ Nat.toDigitsCore 10 fuel n ds, c ≠ '\r' := by
  intro fuel
  induction fuel with
  | zero => intro n ds hds c hc; exact hds c hc
  | succ fuel ih =>
    intro n ds hds c hc
    rw [Nat.toDigitsCore] at hc
    have hd : ∀ x ∈ (n % 10).digitChar :: ds, x ≠ '\r' := by
      intro x hx
      rcases List.mem_cons.mp hx with hx | hx
      · exact hx ▸ digitChar_ne_cr (Nat.mod_lt n (by decide))
      · exact hds x hx
    by_cases hz : n / 10 = 0
    · rw [if_pos hz] at hc
      exact hd c hc
    · rw [if_neg hz] at hc
      exact ih (n / 10) ((n % 10).digitChar :: ds) hd c hc

theorem toString_nat_ne_cr (n : Nat) : '\r' ∉ (toString n).data := by
  intro hmem
  have : (toString n).data = Nat.toDigitsCore 10 (n + 1) n [] := rfl
  rw [this] at hmem
  exact toDigitsCore_ne_cr (n + 1) n [] (by intro c hc; cases hc) '\r' hmem rfl

theorem status_text_ne_cr (status : Nat) : '\r' ∉ (status_text status).data := by
  unfold status_text
  cases hf : STATUS_CODES.find? (fun p => p.1 = status) with
  | none => decide
  | some pr =>
    have hm : pr ∈ STATUS_CODES := List.mem_of_find?_eq_some hf
    show '\r' ∉ pr.2.data
    simp only [STATUS_CODES] at hm
    fin_cases hm <;> decide

theorem splitFirst_colon :
    ∀ (k rest : List Char), ':' ∉ k →
      splitFirst ':' (k ++ ':' :: rest) = some (k, rest) := by
  intro k
  induction k with
  | nil => intro rest h; simp [splitFirst]
  | cons c cs ih =>
    intro rest h
    have hc : ¬ c = ':' := fun hc => h (hc ▸ List.mem_cons_self c cs)
    have hcs : ':' ∉ cs := fun hm => h (List.mem_cons_of_mem c hm)
    simp [splitFirst, hc, ih rest hcs]

theorem stripChars_space_cons (v : List Char) :
    stripChars (' ' :: v) = stripChars v := by
  simp [stripChars, List.dropWhile_cons, isSpace]

theorem dictInsert_append {d : Headers} {k : String} (v : String)
    (h : ∀ p ∈ d, p.1 ≠ k) : dictInsert d k v = d ++ [(k, v)] := by
  induction d with
  | nil => rfl
  | cons p ps ih =>
    have hp : ¬ p.1 = k := h p (List.mem_cons_self p ps)
    show (if p.1 = k then (k, v) :: ps else p :: dictInsert ps k v) = _
    rw [if_neg hp, ih (fun q hq => h q (List.mem_cons_of_mem p hq))]
    rfl

theorem foldl_append_data (ls : List String) :
    ∀ acc : String, (List.foldl (fun r s => r ++ s) acc ls).data
      = acc.data ++ (ls.map String.data).flatten := by
  induction ls with
  | nil => intro acc; simp
  | cons a as ih =>
    intro acc
    simp only [List.foldl_cons, List.map_cons, List.flatten_cons]
    rw [ih (acc ++ a), String.data_append]
    simp [List.append_assoc]

theorem join_data (ls : List String) :
    (String.join ls).data = (ls.map String.data).flatten := by
  have h := foldl_append_data ls ""
  simpa [String.join] using h

theorem splitCRLFChars_lines :
    ∀ (lines : List (List Char)) (B : List Char),
      (∀ l ∈ lines, containsChars l ['\r', '\n'] = false) →
      splitCRLFChars ((lines.map (fun l => l ++ ['\r', '\n'])).flatten ++ '\r' :: '\n' :: B)
        = lines ++ [] :: splitCRLFChars B := by
  intro lines
  induction lines with
  | nil =>
    intro B h
    simpa using splitCRLFChars_append [] B rfl
  | cons l ls ih =>
    intro B h
    have hl := h l (List.mem_cons_self l ls)
    have hls : ∀ x ∈ ls, containsChars x ['\r', '\n'] = false :=
      fun x hx => h x (List.mem_cons_of_mem l hx)
    simp only [List.map_cons, List.flatten_cons]
    have hassoc :
        (l ++ ['\r', '\n']) ++ (ls.map (fun x => x ++ ['\r', '\n'])).flatten ++ '\r' :: '\n' :: B
          = l ++ '\r' :: '\n' ::
              ((ls.map (fun x => x ++ ['\r', '\n'])).flatten ++ '\r' :: '\n' :: B) := by
      simp
    rw [hassoc, splitCRLFChars_append _ _ hl, ih B hls]
    rfl

theorem headerLoop_exact (rest0 : List String) :
    ∀ (hs : Headers) (d : Headers) (i : Nat),
      (∀ p ∈ hs, pystrip p.1 = p.1 ∧ pylower p.1 = p.1 ∧ ':' ∉ p.1.data ∧
        pystrip p.2 = p.2) →
      (∀ p ∈ hs, ∀ q ∈ d, q.1 ≠ p.1) →
      List.Pairwise (fun p q => p.1 ≠ q.1) hs →
      (headerLoop
          ((hs.map (fun p => p.1.data ++ ':' :: ' ' :: p.2.data)).map String.mk
            ++ "" :: rest0) i d).1 = d ++ hs := by
  intro hs
  induction hs with
  | nil =>
    intro d i h1 h2 h3
    simp [headerLoop]
  | cons p t ih =>
    obtain ⟨k, v⟩ := p
    intro d i h1 h2 h3
    obtain ⟨hk1, hk2, hk3, hv1⟩ := h1 (k, v) (List.mem_cons_self _ _)
    have hne : String.mk (k.data ++ ':' :: ' ' :: v.data) ≠ "" := by
      intro hline
      have hdata : (k.data ++ ':' :: ' ' :: v.data) = [] := congrArg String.data hline
      rcases List.append_eq_nil.mp hdata with ⟨-, hcons⟩
      exact List.cons_ne_nil _ _ hcons
    have hsf : splitFirst ':' (String.mk (k.data ++ ':' :: ' ' :: v.data)).data
        = some (k.data, ' ' :: v.data) :=
      splitFirst_colon k.data (' ' :: v.data) hk3
    have hkey : pylower (pystrip (String.mk k.data)) = k := by
      have hmk : String.mk k.data = k := rfl
      rw [hmk, hk1, hk2]
    have hval : pystrip (String.mk (' ' :: v.data)) = v := by
      show String.mk (stripChars (' ' :: v.data)) = v
      rw [stripChars_space_cons]
      exact hv1
    have hins : dictInsert d k v = d ++ [(k, v)] :=
      dictInsert_append v (fun q hq => h2 (k, v) (List.mem_cons_self _ _) q hq)
    have hstep :
        headerLoop
          ((((k, v) :: t).map (fun p => p.1.data ++ ':' :: ' ' :: p.2.data)).map
              String.mk ++ "" :: rest0) i d
        = headerLoop
            ((t.map (fun p => p.1.data ++ ':' :: ' ' :: p.2.data)).map String.mk
              ++ "" :: rest0) (i + 1)
            (dictInsert d (pylower (pystrip (String.mk k.data)))
              (pystrip (String.mk (' ' :: v.data)))) := by
      simp only [List.map_cons, List.cons_append, headerLoop, hne, ite_false,
        String.toList, hsf]
      rfl
    rw [hstep, hkey, hval, hins]
    rw [ih (d ++ [(k, v)]) (i + 1)
      (fun p hp => h1 p (List.mem_cons_of_mem _ hp))
      ?_ (List.pairwise_cons.mp h3).2]
    · simp
    · intro p hp q hq
      rcases List.mem_append.mp hq with hq | hq
      · exact h2 p (List.mem_cons_of_mem _ hp) q hq
      · rw [List.mem_singleton.mp hq]
        exact (List.pairwise_cons.mp h3).1 p hp

theorem splitCRLF_frame (status : Nat) (hdrs : Headers) (body : Body)
    (hn : ∀ p ∈ hdrs, '\r' ∉ p.1.data ∧ '\r' ∉ p.2.data) :
    splitCRLF (frame_unreachable status hdrs body) =
      String.mk ("HTTP/1.1 ".data ++ (toString status).data ++
          ' ' :: (status_text status).data)
        :: ((hdrs.map (fun p => p.1.data ++ ':' :: ' ' :: p.2.data)).map String.mk
          ++ "" :: splitCRLF body.bytes) := by
  have hA : containsChars
      ("HTTP/1.1 ".data ++ (toString status).data ++ ' ' :: (status_text status).data)
      ['\r', '\n'] = false := by
    apply containsChars_crlf_false
    intro hmem
    rcases List.mem_append.mp hmem with h | h
    · rcases List.mem_append.mp h with h | h
      · exact absurd h (by decide)
      · exact toString_nat_ne_cr status h
    · rcases List.mem_cons.mp h with h | h
      · exact absurd h (by decide)
      · exact status_text_ne_cr status h
  have hlines : ∀ l ∈ hdrs.map (fun p => p.1.data ++ ':' :: ' ' :: p.2.data),
      containsChars l ['\r', '\n'] = false := by
    intro l hl
    obtain ⟨p, hp, rfl⟩ := List.mem_map.mp hl
    apply containsChars_crlf_false
    intro hmem
    rcases List.mem_append.mp hmem with h | h
    · exact (hn p hp).1 h
    · rcases List.mem_cons.mp h with h | h
      · exact absurd h (by decide)
      · rcases List.mem_cons.mp h with h | h
        · exact absurd h (by decide)
        · exact (hn p hp).2 h
  have hframe : (frame_unreachable status hdrs body).data =
      ("HTTP/1.1 ".data ++ (toString status).data ++ ' ' :: (status_text status).data)
        ++ '\r' :: '\n' ::
          (((hdrs.map (fun p => p.1.data ++ ':' :: ' ' :: p.2.data)).map
              (fun l => l ++ ['\r', '\n'])).flatten ++ '\r' :: '\n' :: body.bytes.data) := by
    have hcomp : (String.data ∘ fun p : String × String => p.1 ++ ": " ++ p.2 ++ "\r\n")
        = ((fun l => l ++ ['\r', '\n']) ∘
            fun p : String × String => p.1.data ++ ':' :: ' ' :: p.2.data) := by
      funext p
      show (p.1 ++ ": " ++ p.2 ++ "\r\n").data
        = (p.1.data ++ ':' :: ' ' :: p.2.data) ++ ['\r', '\n']
      have h1 : (": " : String).data = [':', ' '] := rfl
      have h2 : ("\r\n" : String).data = ['\r', '\n'] := rfl
      simp [String.data_append, h1, h2]
    unfold frame_unreachable
    have h2 : ("\r\n" : String).data = ['\r', '\n'] := rfl
    have h4 : (" " : String).data = [' '] := rfl
    simp [String.data_append, join_data, List.map_map, hcomp, h2, h4]
  unfold splitCRLF
  simp only [String.toList]
  rw [hframe, splitCRLFChars_append _ _ hA, splitCRLFChars_lines _ _ hlines]
  have hmknil : String.mk ([] : List Char) = "" := rfl
  simp [List.map_append, hmknil]

/-- C9 counterexample: send_response returns before its framing code, so
for every input it sends no bytes; re-parsing what it actually sends
therefore recovers no header mapping at all, and in particular not the
mapping given to the framer. -/
theorem frame_reparse_counterexample :
    (send_response_wire 200 [("content-type", "text/html; charset=utf-8")]
        (.text "x")).map reparse_headers = none
    ∧ (send_response_wire 200 [("content-type", "text/html; charset=utf-8")]
        (.text "x")).map reparse_headers ≠
        some [("content-type", "text/html; charset=utf-8")] :=
  ⟨rfl, by decide⟩

/-- C9 (amended): the actual send_response sends nothing, so re-parsing
its output recovers no header mapping; the unreachable framing code after
the early return, however, round-trips through the Request Parser's
header-splitting logic exactly: for every status code and body, and every
header mapping whose keys are already stripped, lower-cased, colon-free,
CR-free and pairwise distinct and whose values are stripped and CR-free,
re-parsing the framed bytes recovers the identical mapping. -/
theorem frame_reparse_roundtrip (status : Nat) (hdrs : Headers) (body : Body)
    (hcond : ∀ p ∈ hdrs, pystrip p.1 = p.1 ∧ pylower p.1 = p.1 ∧
      ':' ∉ p.1.data ∧ '\r' ∉ p.1.data ∧ pystrip p.2 = p.2 ∧ '\r' ∉ p.2.data)
    (hnd : List.Pairwise (fun p q => p.1 ≠ q.1) hdrs) :
    (send_response_wire status hdrs body).map reparse_headers = none
    ∧ reparse_headers (frame_unreachable status hdrs body) = hdrs := by
  refine ⟨rfl, ?_⟩
  unfold reparse_headers
  rw [splitCRLF_frame status hdrs body
    (fun p hp => ⟨(hcond p hp).2.2.2.1, (hcond p hp).2.2.2.2.2⟩)]
  simp only [List.tail_cons]
  rw [headerLoop_exact (splitCRLF body.bytes) hdrs [] 1
    (fun p hp => ⟨(hcond p hp).1, (hcond p hp).2.1, (hcond p hp).2.2.1,
      (hcond p hp).2.2.2.2.1⟩)
    (fun p hp q hq => absurd hq (List.not_mem_nil q)) hnd]
  simp

/-- Closed witness for frame_reparse_roundtrip. -/
theorem frame_reparse_roundtrip_witness :
    reparse_headers (frame_unreachable 200
      [("content-type", "text/html; charset=utf-8"), ("content-length", "5")]
      (.text "hello")) =
      [("content-type", "text/html; charset=utf-8"), ("content-length", "5")] :=
  (frame_reparse_roundtrip 200
    [("content-type", "text/html; charset=utf-8"), ("content-length", "5")]
    (.text "hello") (by decide) (by decide)).2

end HTTPServerModel
